import Mathlib

/-!
Shallow embedding of the task-orchestrator core: the data model
(`Task`, `TaskInput`, `AgentConfig`), the handler registry, the
classification engine (`classifyTask`) and the queue scheduler
(`addTask`, `updateTask`, `getNextTask`), translated from the
TypeScript source.  Machine integers do not overflow here (scores and
timestamps are small), so numbers are modelled as `Nat`.  Timestamps
(`new Date()`) and fresh ids (`uuid().substring(0, 8)`) are inputs of
the embedded operations.  The persisted store is the explicit
`List Task` threaded through each operation; `loadQueue`/`saveQueue`
are the identity boundary in this model, so an operation that never
calls `saveQueue` in the source is embedded as a pure query.
-/

namespace Orchestrator

/-- The closed enumeration of handler identifiers (`AgentType` in
`types/task.ts`). -/
inductive AgentType where
  | scout
  | builder
  | marketer
  | analyst
  | archivist
  | human
deriving DecidableEq, Repr

/-- The four priority tiers (`TaskPriority`). -/
inductive TaskPriority where
  | critical
  | high
  | medium
  | low
deriving DecidableEq, Repr

/-- Task lifecycle states (`TaskStatus`). -/
inductive TaskStatus where
  | pending
  | assigned
  | in_progress
  | blocked
  | completed
  | cancelled
deriving DecidableEq, Repr

/-- The classification provenance stored in `task.metadata` by `addTask`. -/
structure TaskMeta where
  classificationConfidence : Nat
  classificationReasoning : List String
deriving DecidableEq, Repr

/-- The central `Task` record (`types/task.ts`).  `Date` fields are `Nat`
timestamps; optional fields are `Option`. -/
structure Task where
  id : String
  title : String
  description : String
  agent : AgentType
  priority : TaskPriority
  status : TaskStatus
  tags : List String
  dependencies : List String
  blockedBy : Option String
  blockedReason : Option String
  createdAt : Nat
  updatedAt : Nat
  completedAt : Option Nat
  estimatedMinutes : Option Nat
  actualMinutes : Option Nat
  output : Option String
  metadata : Option TaskMeta
deriving DecidableEq, Repr

/-- Caller-supplied fields for task creation (`TaskInput`). -/
structure TaskInput where
  title : String
  description : Option String := none
  priority : Option TaskPriority := none
  tags : Option (List String) := none
  dependencies : Option (List String) := none
  estimatedMinutes : Option Nat := none
deriving DecidableEq, Repr

/-- A registry entry (`AgentConfig`). -/
structure AgentConfig where
  type : AgentType
  name : String
  description : String
  keywords : List String
  capabilities : List String
  available : Bool
  command : Option String := none
deriving DecidableEq, Repr

/-- The string identifier of a handler, as it appears in the source's
string-literal union type. -/
def typeStr : AgentType → String
  | .scout => "scout"
  | .builder => "builder"
  | .marketer => "marketer"
  | .analyst => "analyst"
  | .archivist => "archivist"
  | .human => "human"

/-- Does `needle` occur at the start of `hay`?  Helper for the embedding of
JavaScript `String.prototype.includes`. -/
def startsWithChars : List Char → List Char → Bool
  | [], _ => true
  | _ :: _, [] => false
  | a :: as, b :: bs => a == b && startsWithChars as bs

/-- Does `needle` occur contiguously anywhere in `hay`? -/
def containsChars (needle : List Char) : List Char → Bool
  | [] => startsWithChars needle []
  | c :: rest => startsWithChars needle (c :: rest) || containsChars needle rest

/-- Embedding of JavaScript `hay.includes(needle)` (substring containment). -/
def strIncludes (hay needle : String) : Bool :=
  containsChars needle.data hay.data

/-- Embedding of JavaScript `toLowerCase()`: character-wise lowering.  All
strings in the registry and the claims are ASCII, where the two coincide. -/
def lowerString (s : String) : String :=
  String.mk (s.data.map Char.toLower)

/-- The first registry entry (`agents/registry.ts`, declaration order 1). -/
def scoutCfg : AgentConfig :=
  { type := .scout,
    name := "Scout",
    description := "Research & Opportunity Detection - monitors job boards, grants, market signals",
    keywords := ["job", "jobs", "hiring", "opportunity", "grant", "funding", "research",
      "find", "search", "monitor", "track", "competitor", "market", "signal"],
    capabilities := ["Monitor job boards", "Track grant deadlines", "Watch market signals",
      "Competitor analysis", "Surface opportunities"],
    available := true,
    command := some "npm run scout scan" }

/-- The static handler registry (`agents/registry.ts`), in declaration
order. -/
def agentRegistry : List AgentConfig := [
  scoutCfg,
  { type := .builder,
    name := "Builder",
    description := "Code Generation & Deployment - takes specs and ships working code",
    keywords := ["build", "code", "implement", "create", "deploy", "ship", "develop",
      "feature", "bug", "fix", "refactor", "api", "frontend", "backend",
      "database", "test", "mvp", "prototype"],
    capabilities := ["Generate code from specs", "Deploy to production", "Fix bugs",
      "Build MVPs", "Refactor code"],
    available := true,
    command := some "claude" },
  { type := .marketer,
    name := "Marketer",
    description := "GTM & Distribution - writes copy, manages social, crafts outreach",
    keywords := ["marketing", "copy", "social", "linkedin", "twitter", "post", "launch",
      "outreach", "email", "campaign", "landing", "page", "content", "seo",
      "product hunt", "announcement", "promotion"],
    capabilities := ["Write marketing copy", "Manage social posts", "Craft cold outreach",
      "Optimize landing pages", "Plan launches"],
    available := true,
    command := some "claude" },
  { type := .analyst,
    name := "Analyst",
    description := "Portfolio & Financial Monitoring - runs mNAV checks, tracks metrics",
    keywords := ["portfolio", "investment", "stock", "crypto", "btc", "mstr", "nav",
      "rebalance", "metrics", "runway", "burn", "monte carlo", "analysis",
      "financial", "trade", "position"],
    capabilities := ["Run mNAV calculations", "Monitor portfolio drift",
      "Calculate rebalancing triggers", "Track burn rate", "Monte Carlo simulations"],
    available := true,
    command := some "claude" },
  { type := .archivist,
    name := "Archivist",
    description := "Knowledge & Context Management - maintains second brain, documentation",
    keywords := ["document", "documentation", "knowledge", "context", "remember", "recall",
      "notes", "archive", "index", "search", "history", "decision", "learning",
      "snippet", "reference"],
    capabilities := ["Index past decisions", "Maintain documentation",
      "Provide context to agents", "Store code snippets", "Track learnings"],
    available := true,
    command := some "claude" },
  { type := .human,
    name := "Human",
    description := "Tasks requiring human judgment, creativity, or decision-making",
    keywords := ["review", "approve", "decide", "creative", "strategy", "meeting",
      "call", "interview", "negotiate", "present"],
    capabilities := ["Strategic decisions", "Creative work", "Architecture review",
      "Stakeholder meetings"],
    available := true,
    command := none }
]

/-- `getAvailableAgents` from `agents/registry.ts`. -/
def getAvailableAgents : List AgentConfig :=
  agentRegistry.filter (fun a => a.available)

/-- The result record of the classifier (`ClassificationResult`). -/
structure ClassificationResult where
  agent : AgentType
  confidence : Nat
  reasoning : List String
deriving DecidableEq, Repr

/-- One handler's raw score and accumulated reason strings, exactly as the
scoring loop of `classifyTask` computes them: +10 per keyword occurring as a
substring of `text`, +15 per tag equal to a keyword (case-insensitively),
+25 once for an explicit mention of the handler's identifier or display
name.  Reasons are appended in that order. -/
def scoreAgent (text : String) (tags : List String) (a : AgentConfig) : Nat × List String :=
  let afterKw := a.keywords.foldl
    (fun acc kw =>
      if strIncludes text (lowerString kw) then
        (acc.1 + 10, acc.2 ++ ["Matches keyword: " ++ kw])
      else acc)
    (0, ([] : List String))
  let afterTags := tags.foldl
    (fun acc tag =>
      if a.keywords.any (fun k => lowerString k == tag) then
        (acc.1 + 15, acc.2 ++ ["Tag matches: " ++ tag])
      else acc)
    afterKw
  if strIncludes text (typeStr a.type) || strIncludes text (lowerString a.name) then
    (afterTags.1 + 25, afterTags.2 ++ ["Explicitly mentions " ++ a.name])
  else afterTags

/-- The lowercased concatenation of title and description that
`classifyTask` scores against. -/
def textOf (input : TaskInput) : String :=
  lowerString (input.title ++ " " ++ input.description.getD "")

/-- The lowercased tag list `classifyTask` scores against. -/
def tagsOf (input : TaskInput) : List String :=
  (input.tags.getD []).map lowerString

/-- The `scores` map of `classifyTask` as an association list in insertion
order.  Registry handler types are pairwise distinct, so the JavaScript
`Map` built in the scoring loop holds exactly these entries in this order. -/
def scoresOf (input : TaskInput) : List (AgentType × Nat × List String) :=
  getAvailableAgents.map (fun a =>
    (a.type, scoreAgent (textOf input) (tagsOf input) a))

/-- One step of the best-handler fold of `classifyTask`: a later entry
replaces the running best only when its score is strictly greater. -/
def pickBest (b e : AgentType × Nat × List String) : AgentType × Nat × List String :=
  if e.2.1 > b.2.1 then e else b

/-- The initial accumulator of the best-handler fold: `human`, score 0,
the no-match reason. -/
def initBest : AgentType × Nat × List String :=
  (.human, 0, ["No clear agent match - routing to human"])

/-- `classifyTask` from `classifier.ts`.  `Math.round(score * 2)` is exact
on naturals. -/
def classifyTask (input : TaskInput) : ClassificationResult :=
  let best := (scoresOf input).foldl pickBest initBest
  let confidence := Nat.min 100 (best.2.1 * 2)
  if confidence < 20 then
    { agent := .human,
      confidence := 100 - confidence,
      reasoning := ["Low confidence in automated classification",
        "Routing to human for decision"] }
  else
    { agent := best.1, confidence := confidence, reasoning := best.2.2.take 3 }

/-- `addTask` from `queue.ts`.  The fresh id (`uuid().substring(0, 8)`) and
the timestamp (`new Date()`) are inputs; the loaded store is `tasks` and the
saved store is the second component of the result. -/
def addTask (input : TaskInput) (newId : String) (now : Nat) (tasks : List Task) :
    Task × List Task :=
  let classification := classifyTask input
  let task : Task := {
    id := newId,
    title := input.title,
    description := input.description.getD "",
    agent := classification.agent,
    priority := input.priority.getD .medium,
    status := .pending,
    tags := input.tags.getD [],
    dependencies := input.dependencies.getD [],
    blockedBy := none,
    blockedReason := none,
    createdAt := now,
    updatedAt := now,
    completedAt := none,
    estimatedMinutes := input.estimatedMinutes,
    actualMinutes := none,
    output := none,
    metadata := some {
      classificationConfidence := classification.confidence,
      classificationReasoning := classification.reasoning } }
  (task, tasks ++ [task])

/-- `Partial<Task>` as passed to `updateTask`: `none` means the field is
absent from the partial; for fields that are themselves optional in `Task`,
a present value is again an `Option`. -/
structure TaskUpdate where
  id : Option String := none
  title : Option String := none
  description : Option String := none
  agent : Option AgentType := none
  priority : Option TaskPriority := none
  status : Option TaskStatus := none
  tags : Option (List String) := none
  dependencies : Option (List String) := none
  blockedBy : Option (Option String) := none
  blockedReason : Option (Option String) := none
  createdAt : Option Nat := none
  updatedAt : Option Nat := none
  completedAt : Option (Option Nat) := none
  estimatedMinutes : Option (Option Nat) := none
  actualMinutes : Option (Option Nat) := none
  output : Option (Option String) := none
  metadata : Option (Option TaskMeta) := none
deriving DecidableEq, Repr

/-- The merge performed by `updateTask` on the matched task:
`{...old, ...updates, updatedAt: now}` followed by
`if (updates.status === "completed") task.completedAt = now`.  The spread's
`updatedAt` from the partial is overwritten by the explicit `now`. -/
def applyUpdates (t : Task) (u : TaskUpdate) (now : Nat) : Task :=
  let merged : Task := {
    id := u.id.getD t.id,
    title := u.title.getD t.title,
    description := u.description.getD t.description,
    agent := u.agent.getD t.agent,
    priority := u.priority.getD t.priority,
    status := u.status.getD t.status,
    tags := u.tags.getD t.tags,
    dependencies := u.dependencies.getD t.dependencies,
    blockedBy := u.blockedBy.getD t.blockedBy,
    blockedReason := u.blockedReason.getD t.blockedReason,
    createdAt := u.createdAt.getD t.createdAt,
    updatedAt := now,
    completedAt := u.completedAt.getD t.completedAt,
    estimatedMinutes := u.estimatedMinutes.getD t.estimatedMinutes,
    actualMinutes := u.actualMinutes.getD t.actualMinutes,
    output := u.output.getD t.output,
    metadata := u.metadata.getD t.metadata }
  if u.status == some .completed then
    { merged with completedAt := some now }
  else merged

/-- `updateTask` from `queue.ts`: `findIndex` locates the first task with
the given id; an unknown id returns `null` and the store is saved
unchanged.  Returns the updated task (or `none`) and the saved store. -/
def updateTask (id : String) (u : TaskUpdate) (now : Nat) :
    List Task → Option Task × List Task
  | [] => (none, [])
  | t :: rest =>
    if t.id == id then
      let t2 := applyUpdates t u now
      (some t2, t2 :: rest)
    else
      let r := updateTask id u now rest
      (r.1, t :: r.2)

/-- The per-dependency check inside `getNextTask`'s eligibility lambda:
`find` the dependency by id and require it to exist with status
completed. -/
def depCompleted (tasks : List Task) (depId : String) : Bool :=
  match tasks.find? (fun d => d.id == depId) with
  | some d => d.status == .completed
  | none => false

/-- The eligibility predicate of `getNextTask`'s `filter` at priority tier
`p`: pending, in the tier, matching the optional handler filter, and every
dependency id resolving (via `find`) to a task whose status is completed. -/
def isCandidate (tasks : List Task) (ag : Option AgentType) (p : TaskPriority)
    (t : Task) : Bool :=
  t.status == .pending &&
  t.priority == p &&
  (match ag with
   | none => true
   | some a => t.agent == a) &&
  t.dependencies.all (depCompleted tasks)

/-- The tier scan of `getNextTask`: for each priority in order, filter the
store and return the first candidate of the first non-empty tier. -/
def scanTiers (tasks : List Task) (ag : Option AgentType) :
    List TaskPriority → Option Task
  | [] => none
  | p :: ps =>
    match tasks.filter (isCandidate tasks ag p) with
    | c :: _ => some c
    | [] => scanTiers tasks ag ps

/-- `getNextTask` from `queue.ts`: scans the fixed `priorityOrder`
`["critical", "high", "medium", "low"]`.  The source only loads the queue
and never saves it, so the embedding is a pure query on the store. -/
def getNextTask (tasks : List Task) (ag : Option AgentType) : Option Task :=
  scanTiers tasks ag [.critical, .high, .medium, .low]

/-- Numeric severity of a tier, `0` most severe; this is the
`priorityOrder` index. -/
def priorityRank : TaskPriority → Nat
  | .critical => 0
  | .high => 1
  | .medium => 2
  | .low => 3

/-- A task is eligible (at its own priority tier) for the given handler
filter: the §3 eligibility predicate of the spec, expressed through the
source's `isCandidate`. -/
def eligibleB (tasks : List Task) (ag : Option AgentType) (t : Task) : Bool :=
  isCandidate tasks ag t.priority t

/-- The `completedAt`-iff-`completed` invariant for one task. -/
def statusCompletedIffCA (t : Task) : Bool :=
  t.completedAt.isSome == (t.status == .completed)

/-- The `completedAt`-iff-`completed` invariant for a whole store. -/
def invariantCA (ts : List Task) : Bool :=
  ts.all statusCompletedIffCA

/-- Highest raw score among a list of scoring entries. -/
def maxScore (l : List (AgentType × Nat × List String)) : Nat :=
  l.foldr (fun e acc => Nat.max e.2.1 acc) 0

/-- The best raw score any available handler attains on an input, defined
directly as the maximum over the per-handler scores (independently of the
best-tracking fold inside `classifyTask`). -/
def maxRawScore (input : TaskInput) : Nat :=
  maxScore (scoresOf input)

/-- A default task record used to build concrete test stores. -/
def baseTask : Task := {
  id := "", title := "", description := "", agent := .human,
  priority := .medium, status := .pending, tags := [], dependencies := [],
  blockedBy := none, blockedReason := none, createdAt := 0, updatedAt := 0,
  completedAt := none, estimatedMinutes := none, actualMinutes := none,
  output := none, metadata := none }

/-- Concrete task A of the dependency scenario: `pending`/`high`, no
dependencies. -/
def taskA : Task := { baseTask with id := "a", title := "A", priority := .high }

/-- Concrete task B of the dependency scenario: `pending`/`high`,
`dependencies = [A.id]`. -/
def taskB : Task :=
  { baseTask with id := "b", title := "B", priority := .high, dependencies := ["a"] }

/-- Task A after its status became `completed`. -/
def taskAdone : Task := { taskA with status := .completed, completedAt := some 1 }

/-- Concrete `low`-priority task of the priority-ordering scenario. -/
def taskLow : Task := { baseTask with id := "l", priority := .low }

/-- Concrete `critical`-priority task of the priority-ordering scenario. -/
def taskCrit : Task := { baseTask with id := "c", priority := .critical }

/-- Concrete `medium`-priority task of the priority-ordering scenario. -/
def taskMed : Task := { baseTask with id := "m", priority := .medium }

/-- A `TaskInput` whose text matches no registry keyword, identifier or
display name. -/
def inputNoMatch : TaskInput := { title := "zzz" }

/-- A `TaskInput` whose text scores 10 for both `scout` and `archivist`
(keyword "search" belongs to both keyword sets): a nonzero tie. -/
def inputTie : TaskInput := { title := "search" }

/-- The explicit-mention example input of the spec. -/
def inputScout : TaskInput := { title := "Ask Scout to check competitor pricing" }

/-- The store reached from the empty store by `add`. -/
def storeAfterAdd : List Task := (addTask inputNoMatch "a1" 0 []).2

/-- The store reached from `storeAfterAdd` by the facade's `complete`
operation (`updateTask(id, { status: "completed", output })`). -/
def storeAfterComplete : List Task :=
  (updateTask "a1" { status := some .completed, output := some (some "done") } 1
    storeAfterAdd).2

/-- The store reached from `storeAfterComplete` by the facade's `block`
operation (`updateTask(id, { status: "blocked", blockedReason })`). -/
def storeAfterBlock : List Task :=
  (updateTask "a1" { status := some .blocked, blockedReason := some (some "r") } 2
    storeAfterComplete).2

/-- A task whose dependency list contains its own id. -/
def taskSelf : Task := { baseTask with id := "s", dependencies := ["s"] }

/-- A completed task with `completedAt` set, used for the re-pending
exhibit. -/
def taskDoneX : Task :=
  { baseTask with id := "x", status := .completed, completedAt := some 3 }

end Orchestrator

namespace Orchestrator

theorem depCompleted_iff {tasks : List Task} {depId : String} :
    depCompleted tasks depId = true ↔
      ∃ d, tasks.find? (fun d => d.id == depId) = some d ∧ d.status = .completed := by
  unfold depCompleted
  cases h : tasks.find? (fun d => d.id == depId) with
  | none => simp
  | some d => simp [beq_iff_eq]

theorem depCompleted_exists {tasks : List Task} {depId : String}
    (h : depCompleted tasks depId = true) :
    ∃ d ∈ tasks, d.id = depId ∧ d.status = .completed := by
  obtain ⟨d, hfind, hst⟩ := depCompleted_iff.mp h
  refine ⟨d, List.mem_of_find?_eq_some hfind, ?_, hst⟩
  have := List.find?_some hfind
  simpa [beq_iff_eq] using this

theorem isCandidate_iff {tasks : List Task} {ag : Option AgentType}
    {p : TaskPriority} {t : Task} :
    isCandidate tasks ag p t = true ↔
      t.status = .pending ∧ t.priority = p ∧
      (∀ a, ag = some a → t.agent = a) ∧
      (∀ depId ∈ t.dependencies, depCompleted tasks depId = true) := by
  unfold isCandidate
  cases ag with
  | none => simp [List.all_eq_true, beq_iff_eq, and_assoc]
  | some a => simp [List.all_eq_true, beq_iff_eq, and_assoc]



theorem filter_head_spec {tasks : List Task} {ag : Option AgentType}
    {p : TaskPriority} {c : Task} {cs : List Task}
    (h : tasks.filter (isCandidate tasks ag p) = c :: cs) :
    c ∈ tasks ∧ isCandidate tasks ag p c = true ∧ c.priority = p := by
  have hc : c ∈ tasks.filter (isCandidate tasks ag p) := by
    rw [h]; exact List.mem_cons_self c cs
  rw [List.mem_filter] at hc
  exact ⟨hc.1, hc.2, (isCandidate_iff.mp hc.2).2.1⟩

theorem filter_empty_spec {tasks : List Task} {ag : Option AgentType}
    {p : TaskPriority}
    (h : tasks.filter (isCandidate tasks ag p) = []) :
    ∀ u ∈ tasks, u.priority = p → eligibleB tasks ag u = false := by
  intro u hu hp
  rw [List.filter_eq_nil_iff] at h
  have := h u hu
  unfold eligibleB
  rw [hp]
  exact Bool.not_eq_true _ ▸ (by simpa using this)

theorem eligibleB_ne_tier {tasks : List Task} {ag : Option AgentType}
    {p : TaskPriority} {u : Task}
    (h : tasks.filter (isCandidate tasks ag p) = [])
    (hu : u ∈ tasks) (he : eligibleB tasks ag u = true) :
    u.priority ≠ p := by
  intro hp
  have := filter_empty_spec h u hu hp
  rw [he] at this
  simp at this

theorem getNextTask_some_spec {tasks : List Task} {ag : Option AgentType} {t : Task}
    (h : getNextTask tasks ag = some t) :
    t ∈ tasks ∧ eligibleB tasks ag t = true ∧
    (tasks.filter (isCandidate tasks ag t.priority)).head? = some t ∧
    ∀ u ∈ tasks, eligibleB tasks ag u = true →
      priorityRank t.priority ≤ priorityRank u.priority := by
  unfold getNextTask at h
  rcases h1 : tasks.filter (isCandidate tasks ag .critical) with _ | ⟨c1, cs1⟩
  case cons =>
    rw [scanTiers, h1] at h
    obtain ⟨hmem, hcand, hp⟩ := filter_head_spec h1
    obtain rfl : c1 = t := by simpa using h
    refine ⟨hmem, ?_, ?_, ?_⟩
    · unfold eligibleB; rw [hp]; exact hcand
    · rw [hp, h1]; rfl
    · intro u _ _; rw [hp]; exact Nat.zero_le _
  case nil =>
  rw [scanTiers, h1] at h
  rcases h2 : tasks.filter (isCandidate tasks ag .high) with _ | ⟨c2, cs2⟩
  case cons =>
    rw [scanTiers, h2] at h
    obtain ⟨hmem, hcand, hp⟩ := filter_head_spec h2
    obtain rfl : c2 = t := by simpa using h
    refine ⟨hmem, ?_, ?_, ?_⟩
    · unfold eligibleB; rw [hp]; exact hcand
    · rw [hp, h2]; rfl
    · intro u hu he
      have n1 := eligibleB_ne_tier h1 hu he
      rw [hp]
      cases hup : u.priority
      · exact absurd hup n1
      · decide
      · decide
      · decide
  case nil =>
  rw [scanTiers, h2] at h
  rcases h3 : tasks.filter (isCandidate tasks ag .medium) with _ | ⟨c3, cs3⟩
  case cons =>
    rw [scanTiers, h3] at h
    obtain ⟨hmem, hcand, hp⟩ := filter_head_spec h3
    obtain rfl : c3 = t := by simpa using h
    refine ⟨hmem, ?_, ?_, ?_⟩
    · unfold eligibleB; rw [hp]; exact hcand
    · rw [hp, h3]; rfl
    · intro u hu he
      have n1 := eligibleB_ne_tier h1 hu he
      have n2 := eligibleB_ne_tier h2 hu he
      rw [hp]
      cases hup : u.priority
      · exact absurd hup n1
      · exact absurd hup n2
      · decide
      · decide
  case nil =>
  rw [scanTiers, h3] at h
  rcases h4 : tasks.filter (isCandidate tasks ag .low) with _ | ⟨c4, cs4⟩
  case cons =>
    rw [scanTiers, h4] at h
    obtain ⟨hmem, hcand, hp⟩ := filter_head_spec h4
    obtain rfl : c4 = t := by simpa using h
    refine ⟨hmem, ?_, ?_, ?_⟩
    · unfold eligibleB; rw [hp]; exact hcand
    · rw [hp, h4]; rfl
    · intro u hu he
      have n1 := eligibleB_ne_tier h1 hu he
      have n2 := eligibleB_ne_tier h2 hu he
      have n3 := eligibleB_ne_tier h3 hu he
      rw [hp]
      cases hup : u.priority
      · exact absurd hup n1
      · exact absurd hup n2
      · exact absurd hup n3
      · decide
  case nil =>
  rw [scanTiers, h4, scanTiers] at h
  simp at h

theorem getNextTask_none_iff {tasks : List Task} {ag : Option AgentType} :
    getNextTask tasks ag = none ↔ ∀ u ∈ tasks, eligibleB tasks ag u = false := by
  constructor
  · intro h u hu
    unfold getNextTask at h
    rcases h1 : tasks.filter (isCandidate tasks ag .critical) with _ | ⟨c1, cs1⟩
    case cons => rw [scanTiers, h1] at h; simp at h
    rw [scanTiers, h1] at h
    rcases h2 : tasks.filter (isCandidate tasks ag .high) with _ | ⟨c2, cs2⟩
    case cons => rw [scanTiers, h2] at h; simp at h
    rw [scanTiers, h2] at h
    rcases h3 : tasks.filter (isCandidate tasks ag .medium) with _ | ⟨c3, cs3⟩
    case cons => rw [scanTiers, h3] at h; simp at h
    rw [scanTiers, h3] at h
    rcases h4 : tasks.filter (isCandidate tasks ag .low) with _ | ⟨c4, cs4⟩
    case cons => rw [scanTiers, h4] at h; simp at h
    cases hup : u.priority
    · exact filter_empty_spec h1 u hu hup
    · exact filter_empty_spec h2 u hu hup
    · exact filter_empty_spec h3 u hu hup
    · exact filter_empty_spec h4 u hu hup
  · intro hall
    have hemp : ∀ p : TaskPriority, tasks.filter (isCandidate tasks ag p) = [] := by
      intro p
      rw [List.filter_eq_nil_iff]
      intro u hu hcand
      have hp : u.priority = p := (isCandidate_iff.mp hcand).2.1
      have : eligibleB tasks ag u = true := by
        unfold eligibleB; rw [hp]; exact hcand
      rw [hall u hu] at this
      simp at this
    unfold getNextTask
    rw [scanTiers, hemp .critical, scanTiers, hemp .high, scanTiers, hemp .medium,
      scanTiers, hemp .low, scanTiers]

/-- Claim C1: a task returned by `getNextTask` never has a dependency id
that fails to resolve to an existing store task with status completed (an
absent id therefore renders the task ineligible); with unique task ids a
task depending on its own id is never returned; and in the concrete
scenario task A (no dependencies) is returned while task B
(`dependencies = [A.id]`) waits, then B is returned once A is completed. -/
theorem nextEligible_dependencies_completed :
    (∀ (tasks : List Task) (ag : Option AgentType) (t : Task),
       getNextTask tasks ag = some t →
       ∀ depId ∈ t.dependencies,
         ∃ d ∈ tasks, d.id = depId ∧ d.status = TaskStatus.completed)
    ∧ (∀ (tasks : List Task) (ag : Option AgentType) (t : Task),
        (tasks.map Task.id).Nodup → t ∈ tasks → t.id ∈ t.dependencies →
        getNextTask tasks ag ≠ some t)
    ∧ getNextTask [taskA, taskB] none = some taskA
    ∧ getNextTask [taskAdone, taskB] none = some taskB := by
  refine ⟨?_, ?_, by decide, by decide⟩
  · intro tasks ag t h depId hdep
    have hc := (getNextTask_some_spec h).2.1
    unfold eligibleB at hc
    exact depCompleted_exists ((isCandidate_iff.mp hc).2.2.2 depId hdep)
  · intro tasks ag t hnd hmem hself h
    have hc := (getNextTask_some_spec h).2.1
    unfold eligibleB at hc
    have hiff := isCandidate_iff.mp hc
    obtain ⟨d, hdmem, hdid, hdst⟩ := depCompleted_exists (hiff.2.2.2 t.id hself)
    have hdt : d = t := List.inj_on_of_nodup_map hnd hdmem hmem hdid
    rw [hdt, hiff.1] at hdst
    simp at hdst

/-- Claim C1 witness: the self-dependency part applied to a concrete
one-task store. -/
theorem nextEligible_dependencies_completed_witness :
    getNextTask [taskSelf] none ≠ some taskSelf :=
  nextEligible_dependencies_completed.2.1 [taskSelf] none taskSelf
    (by decide) (by decide) (by decide)

/-- Claim C2: `getNextTask` scans the fixed tier order critical, high,
medium, low: a returned task is a member of the store, eligible, the first
candidate of its own tier in store order, and no eligible task sits in a
strictly more severe tier; the scan returns none exactly when no store task
is eligible; and with tasks of priority low, critical, medium added in that
order it returns the critical one.  The embedding is a pure query because
the source's `getNextTask` only loads the queue and never saves it. -/
theorem nextEligible_tier_scan :
    (∀ (tasks : List Task) (ag : Option AgentType) (t : Task),
       getNextTask tasks ag = some t →
       t ∈ tasks ∧ eligibleB tasks ag t = true ∧
       (tasks.filter (isCandidate tasks ag t.priority)).head? = some t ∧
       ∀ u ∈ tasks, eligibleB tasks ag u = true →
         priorityRank t.priority ≤ priorityRank u.priority)
    ∧ (∀ (tasks : List Task) (ag : Option AgentType),
        getNextTask tasks ag = none ↔ ∀ u ∈ tasks, eligibleB tasks ag u = false)
    ∧ getNextTask [taskLow, taskCrit, taskMed] none = some taskCrit :=
  ⟨fun _ _ _ h => getNextTask_some_spec h, fun _ _ => getNextTask_none_iff, by decide⟩

/-- Claim C2 witness: the characterization applied to the concrete
low/critical/medium store. -/
theorem nextEligible_tier_scan_witness :
    taskCrit ∈ [taskLow, taskCrit, taskMed] ∧
    eligibleB [taskLow, taskCrit, taskMed] none taskCrit = true ∧
    (([taskLow, taskCrit, taskMed].filter
       (isCandidate [taskLow, taskCrit, taskMed] none taskCrit.priority)).head? =
         some taskCrit) := by
  have h := nextEligible_tier_scan.1 [taskLow, taskCrit, taskMed] none taskCrit (by decide)
  exact ⟨h.1, h.2.1, h.2.2.1⟩

theorem pickBest_score (b e : AgentType × Nat × List String) :
    (pickBest b e).2.1 = Nat.max b.2.1 e.2.1 := by
  unfold pickBest
  split
  case isTrue h => exact (Nat.max_eq_right (Nat.le_of_lt h)).symm
  case isFalse h => exact (Nat.max_eq_left (Nat.le_of_not_lt h)).symm

theorem maxScore_cons (e : AgentType × Nat × List String)
    (t : List (AgentType × Nat × List String)) :
    maxScore (e :: t) = Nat.max e.2.1 (maxScore t) := rfl

theorem foldl_pickBest_score :
    ∀ (l : List (AgentType × Nat × List String)) (b : AgentType × Nat × List String),
    (l.foldl pickBest b).2.1 = Nat.max b.2.1 (maxScore l) := by
  intro l
  induction l with
  | nil => intro b; simp [maxScore]
  | cons e t ih =>
    intro b
    rw [List.foldl_cons, ih, pickBest_score, maxScore_cons]
    exact Nat.max_assoc _ _ _

theorem foldl_pickBest_stay :
    ∀ (l : List (AgentType × Nat × List String)) (b : AgentType × Nat × List String),
    maxScore l ≤ b.2.1 → l.foldl pickBest b = b := by
  intro l
  induction l with
  | nil => intro b _; rfl
  | cons e t ih =>
    intro b h
    rw [maxScore_cons, Nat.max_le] at h
    rw [List.foldl_cons]
    have hb : pickBest b e = b := by
      unfold pickBest
      rw [if_neg (Nat.not_lt.mpr h.1)]
    rw [hb]
    exact ih b h.2

theorem foldl_pickBest_first :
    ∀ (l : List (AgentType × Nat × List String)) (b e : AgentType × Nat × List String),
    b.2.1 < maxScore l →
    l.find? (fun x => x.2.1 == maxScore l) = some e →
    l.foldl pickBest b = e := by
  intro l
  induction l with
  | nil => intro b e h _; simp [maxScore] at h
  | cons a t ih =>
    intro b e hlt hfind
    by_cases ha : a.2.1 = maxScore (a :: t)
    · rw [List.find?_cons_of_pos (p := fun x => x.2.1 == maxScore (a :: t)) t
        (by simpa using ha)] at hfind
      obtain rfl : a = e := by simpa using hfind
      rw [List.foldl_cons]
      have hb : pickBest b a = a := by
        unfold pickBest
        rw [if_pos (ha ▸ hlt)]
      rw [hb]
      apply foldl_pickBest_stay
      calc maxScore t ≤ maxScore (a :: t) := by
            rw [maxScore_cons]; exact Nat.le_max_right _ _
        _ = a.2.1 := ha.symm
    · have hmt : maxScore (a :: t) = maxScore t := by
        rcases Nat.le_total a.2.1 (maxScore t) with hle | hle
        · rw [maxScore_cons]; exact Nat.max_eq_right hle
        · exact absurd (by rw [maxScore_cons]; exact (Nat.max_eq_left hle).symm) ha
      have halt : a.2.1 < maxScore t := by
        refine Nat.lt_of_le_of_ne ?_ (fun heq => ha (by rw [hmt, heq]))
        have h1 : a.2.1 ≤ maxScore (a :: t) := by
          rw [maxScore_cons]; exact Nat.le_max_left _ _
        rw [hmt] at h1
        exact h1
      rw [List.find?_cons_of_neg (p := fun x => x.2.1 == maxScore (a :: t)) t
        (by simpa using ha), hmt] at hfind
      rw [List.foldl_cons]
      apply ih
      · rw [pickBest_score]
        rw [hmt] at hlt
        exact Nat.max_lt.mpr ⟨hlt, halt⟩
      · exact hfind

theorem foldl_score_step {α : Type} (f : α → Bool) (k : Nat) (hk : 10 ≤ k)
    (msg : α → String) :
    ∀ (l : List α) (acc : Nat × List String), (acc.1 = 0 ∨ 10 ≤ acc.1) →
    ((l.foldl (fun acc x => if f x then (acc.1 + k, acc.2 ++ [msg x]) else acc) acc).1 = 0 ∨
     10 ≤ (l.foldl (fun acc x => if f x then (acc.1 + k, acc.2 ++ [msg x]) else acc) acc).1) := by
  intro l
  induction l with
  | nil => intro acc h; exact h
  | cons x t ih =>
    intro acc h
    rw [List.foldl_cons]
    apply ih
    by_cases hf : f x = true
    · rw [if_pos hf]; right; show 10 ≤ acc.1 + k; omega
    · rw [if_neg hf]; exact h

theorem scoreAgent_zero_or_ge10 (text : String) (tags : List String) (a : AgentConfig) :
    (scoreAgent text tags a).1 = 0 ∨ 10 ≤ (scoreAgent text tags a).1 := by
  unfold scoreAgent
  have h1 := foldl_score_step (fun kw => strIncludes text (lowerString kw)) 10 (by decide)
      (fun kw => "Matches keyword: " ++ kw) a.keywords (0, []) (Or.inl rfl)
  have h2 := foldl_score_step (fun tag => a.keywords.any (fun k => lowerString k == tag)) 15
      (by decide) (fun tag => "Tag matches: " ++ tag) tags _ h1
  split
  · right; show 10 ≤ _ + 25; omega
  · exact h2

theorem maxScore_zero_or_ge10 (l : List (AgentType × Nat × List String))
    (h : ∀ e ∈ l, e.2.1 = 0 ∨ 10 ≤ e.2.1) :
    maxScore l = 0 ∨ 10 ≤ maxScore l := by
  induction l with
  | nil => left; rfl
  | cons e t ih =>
    have he := h e (List.mem_cons_self e t)
    have ht := ih (fun x hx => h x (List.mem_cons_of_mem _ hx))
    rw [maxScore_cons]
    rcases he with he | he <;> rcases ht with ht | ht
    · left; rw [he, ht]; rfl
    · right; rw [he]; calc 10 ≤ maxScore t := ht
        _ ≤ Nat.max 0 (maxScore t) := Nat.le_max_right _ _
    · right; rw [ht]; calc 10 ≤ e.2.1 := he
        _ ≤ Nat.max e.2.1 0 := Nat.le_max_left _ _
    · right; calc 10 ≤ e.2.1 := he
        _ ≤ Nat.max e.2.1 (maxScore t) := Nat.le_max_left _ _

theorem maxRawScore_zero_or_ge10 (input : TaskInput) :
    maxRawScore input = 0 ∨ 10 ≤ maxRawScore input := by
  apply maxScore_zero_or_ge10
  intro e he
  unfold scoresOf at he
  obtain ⟨a, _, rfl⟩ := List.mem_map.mp he
  exact scoreAgent_zero_or_ge10 _ _ a

theorem classify_best_score (input : TaskInput) :
    ((scoresOf input).foldl pickBest initBest).2.1 = maxRawScore input := by
  rw [foldl_pickBest_score]
  exact Nat.zero_max _

theorem classify_branch_bound (input : TaskInput) :
    (Nat.min 100 (maxRawScore input * 2) < 20 →
       classifyTask input =
         { agent := .human,
           confidence := 100 - Nat.min 100 (maxRawScore input * 2),
           reasoning := ["Low confidence in automated classification",
             "Routing to human for decision"] })
    ∧ (20 ≤ Nat.min 100 (maxRawScore input * 2) →
       classifyTask input =
         { agent := ((scoresOf input).foldl pickBest initBest).1,
           confidence := Nat.min 100 (maxRawScore input * 2),
           reasoning := ((scoresOf input).foldl pickBest initBest).2.2.take 3 } ∧
       (classifyTask input).reasoning.length ≤ 3) := by
  have hbs := classify_best_score input
  have h0 : classifyTask input =
      (if Nat.min 100 (((scoresOf input).foldl pickBest initBest).2.1 * 2) < 20 then
        { agent := .human,
          confidence := 100 - Nat.min 100 (((scoresOf input).foldl pickBest initBest).2.1 * 2),
          reasoning := ["Low confidence in automated classification",
            "Routing to human for decision"] }
      else
        { agent := ((scoresOf input).foldl pickBest initBest).1,
          confidence := Nat.min 100 (((scoresOf input).foldl pickBest initBest).2.1 * 2),
          reasoning := ((scoresOf input).foldl pickBest initBest).2.2.take 3 }) := rfl
  rw [hbs] at h0
  constructor
  · intro h
    rw [h0, if_pos h]
  · intro h
    rw [h0, if_neg (Nat.not_lt.mpr h)]
    refine ⟨rfl, ?_⟩
    show (List.take 3 _).length ≤ 3
    rw [List.length_take]
    exact Nat.min_le_left _ _

/-- Claim C3: `classifyTask` computes `confidence = min(100, bestRawScore
* 2)` (rounding is exact on naturals); whenever that value is below 20 it
returns the human sentinel, confidence `100` minus that value, and exactly
the two fixed reasoning strings; otherwise it returns the winning handler
(the result of the strict-greater best fold over the per-handler scores)
with that confidence and the first at most three of the winner's
accumulated reason strings. -/
theorem classify_confidence_rule (input : TaskInput) :
    (Nat.min 100 (maxRawScore input * 2) < 20 →
       classifyTask input =
         { agent := .human,
           confidence := 100 - Nat.min 100 (maxRawScore input * 2),
           reasoning := ["Low confidence in automated classification",
             "Routing to human for decision"] })
    ∧ (20 ≤ Nat.min 100 (maxRawScore input * 2) →
       classifyTask input =
         { agent := ((scoresOf input).foldl pickBest initBest).1,
           confidence := Nat.min 100 (maxRawScore input * 2),
           reasoning := ((scoresOf input).foldl pickBest initBest).2.2.take 3 } ∧
       (classifyTask input).reasoning.length ≤ 3) :=
  classify_branch_bound input

/-- Claim C3 witness: both branches applied at concrete inputs — the
low-confidence branch on a no-match input and the full-result branch on
the scout-mention input. -/
theorem classify_confidence_rule_witness :
    (classifyTask inputNoMatch =
      { agent := .human,
        confidence := 100 - Nat.min 100 (maxRawScore inputNoMatch * 2),
        reasoning := ["Low confidence in automated classification",
          "Routing to human for decision"] }) ∧
    (classifyTask inputScout =
      { agent := ((scoresOf inputScout).foldl pickBest initBest).1,
        confidence := Nat.min 100 (maxRawScore inputScout * 2),
        reasoning := ((scoresOf inputScout).foldl pickBest initBest).2.2.take 3 } ∧
     (classifyTask inputScout).reasoning.length ≤ 3) :=
  ⟨(classify_confidence_rule inputNoMatch).1 (by decide),
   (classify_confidence_rule inputScout).2 (by decide)⟩

/-- Claim C10: every scoring increment is at least 10, so the best raw
score is 0 or at least 10; the under-confidence branch fires exactly when
the best raw score is 0; in that case the reported (inverted) confidence is
exactly 100; hence the returned confidence never lies in the open interval
(0, 20). -/
theorem classify_never_weak_confidence (input : TaskInput) :
    (maxRawScore input = 0 ∨ 10 ≤ maxRawScore input)
    ∧ (Nat.min 100 (maxRawScore input * 2) < 20 ↔ maxRawScore input = 0)
    ∧ (maxRawScore input = 0 →
        classifyTask input =
          { agent := .human, confidence := 100,
            reasoning := ["Low confidence in automated classification",
              "Routing to human for decision"] })
    ∧ ¬(0 < (classifyTask input).confidence ∧ (classifyTask input).confidence < 20) := by
  have hz := maxRawScore_zero_or_ge10 input
  have hiff : Nat.min 100 (maxRawScore input * 2) < 20 ↔ maxRawScore input = 0 := by
    constructor
    · intro h
      rcases hz with h0 | h10
      · exact h0
      · exfalso
        have h20 : 20 ≤ Nat.min 100 (maxRawScore input * 2) :=
          Nat.le_min.mpr ⟨by omega, by omega⟩
        omega
    · intro h
      rw [h]
      decide
  have hzero : maxRawScore input = 0 →
      classifyTask input =
        { agent := .human, confidence := 100,
          reasoning := ["Low confidence in automated classification",
            "Routing to human for decision"] } := by
    intro h
    have hc := (classify_branch_bound input).1 (hiff.mpr h)
    rw [h] at hc
    simpa using hc
  refine ⟨hz, hiff, hzero, ?_⟩
  rcases hz with h0 | h10
  · rw [hzero h0]
    decide
  · have h20 : 20 ≤ Nat.min 100 (maxRawScore input * 2) :=
      Nat.le_min.mpr ⟨by omega, by omega⟩
    have hc := ((classify_branch_bound input).2 h20).1
    have hconf : (classifyTask input).confidence =
        Nat.min 100 (maxRawScore input * 2) := by
      rw [hc]
    intro hcontra
    rw [hconf] at hcontra
    omega

/-- Claim C7 (amended): when the strictly-highest raw score is nonzero,
the first handler in registry declaration order attaining it wins (a
later-declared handler replaces an earlier one only on a strictly greater
score); when every handler scores 0 the low-confidence override returns the
human sentinel instead of the first-declared handler. -/
theorem classify_tie_registry_order (input : TaskInput) (a : AgentConfig)
    (hfind : getAvailableAgents.find?
        (fun x => (scoreAgent (textOf input) (tagsOf input) x).1 == maxRawScore input) =
          some a)
    (hpos : 0 < maxRawScore input) :
    (classifyTask input).agent = a.type := by
  have h10 : 10 ≤ maxRawScore input := by
    rcases maxRawScore_zero_or_ge10 input with h | h
    · omega
    · exact h
  have hfind2 : (scoresOf input).find? (fun x => x.2.1 == maxRawScore input) =
      some (a.type, scoreAgent (textOf input) (tagsOf input) a) := by
    unfold scoresOf
    rw [List.find?_map]
    rw [show ((fun x : AgentType × Nat × List String => x.2.1 == maxRawScore input) ∘
          (fun a : AgentConfig => (a.type, scoreAgent (textOf input) (tagsOf input) a))) =
        (fun x : AgentConfig =>
          (scoreAgent (textOf input) (tagsOf input) x).1 == maxRawScore input) from rfl]
    rw [hfind]
    rfl
  have hfold : (scoresOf input).foldl pickBest initBest =
      (a.type, scoreAgent (textOf input) (tagsOf input) a) :=
    foldl_pickBest_first (scoresOf input) initBest _ hpos hfind2
  have hcond : ¬ (Nat.min 100 (((scoresOf input).foldl pickBest initBest).2.1 * 2) < 20) := by
    rw [classify_best_score input]
    exact Nat.not_lt.mpr (Nat.le_min.mpr ⟨by omega, by omega⟩)
  rw [show classifyTask input =
      (if Nat.min 100 (((scoresOf input).foldl pickBest initBest).2.1 * 2) < 20 then
        { agent := AgentType.human,
          confidence := 100 - Nat.min 100 (((scoresOf input).foldl pickBest initBest).2.1 * 2),
          reasoning := ["Low confidence in automated classification",
            "Routing to human for decision"] }
      else
        { agent := ((scoresOf input).foldl pickBest initBest).1,
          confidence := Nat.min 100 (((scoresOf input).foldl pickBest initBest).2.1 * 2),
          reasoning := ((scoresOf input).foldl pickBest initBest).2.2.take 3 }) from rfl,
    if_neg hcond]
  show ((scoresOf input).foldl pickBest initBest).1 = a.type
  rw [hfold]

/-- Claim C7 counterexample: on a no-match input every available handler
attains the tied highest raw score 0, the first-declared handler is scout,
yet `classifyTask` returns human. -/
theorem classify_tie_counterexample :
    ((scoresOf inputNoMatch).map (fun e => e.2.1) = [0, 0, 0, 0, 0, 0]) ∧
    maxRawScore inputNoMatch = 0 ∧
    (agentRegistry.map AgentConfig.type).head? = some AgentType.scout ∧
    (classifyTask inputNoMatch).agent = AgentType.human := by decide

/-- Claim C7 witness: keyword "search" scores 10 for both scout and
archivist; the tie goes to scout, the first of the two in registry
order. -/
theorem classify_tie_registry_order_witness :
    (classifyTask inputTie).agent = scoutCfg.type :=
  classify_tie_registry_order inputTie scoutCfg (by decide) (by decide)

/-- Claim C10 witness: the zero-score case evaluated on a no-match
input. -/
theorem classify_never_weak_confidence_witness :
    maxRawScore inputNoMatch = 0 ∧
    classifyTask inputNoMatch =
      { agent := .human, confidence := 100,
        reasoning := ["Low confidence in automated classification",
          "Routing to human for decision"] } :=
  ⟨by decide, (classify_never_weak_confidence inputNoMatch).2.2.1 (by decide)⟩

/-- Claim C8: on the title "Ask Scout to check competitor pricing" the
scout handler receives the +25 explicit-mention bonus on top of +10 for
keyword "competitor" (raw score 35, with both reasons recorded), and
`classifyTask` returns scout with confidence 70 which is at least 54. -/
theorem classify_scout_example :
    strIncludes (textOf inputScout) (typeStr scoutCfg.type) = true ∧
    (scoreAgent (textOf inputScout) (tagsOf inputScout) scoutCfg).1 = 35 ∧
    (scoreAgent (textOf inputScout) (tagsOf inputScout) scoutCfg).2 =
      ["Matches keyword: competitor", "Explicitly mentions Scout"] ∧
    classifyTask inputScout =
      { agent := .scout, confidence := 70,
        reasoning := ["Matches keyword: competitor", "Explicitly mentions Scout"] } ∧
    54 ≤ (classifyTask inputScout).confidence := by decide

/-- Claim C4 counterexample: the `completedAt`-iff-completed invariant is
not preserved by the core operations as claimed: starting from the empty
store, add then complete then block on the same task yields a store whose
only task is blocked while its `completedAt` is still set. -/
theorem completedAt_invariant_counterexample :
    invariantCA storeAfterAdd = true ∧
    invariantCA storeAfterComplete = true ∧
    invariantCA storeAfterBlock = false ∧
    storeAfterBlock.map (fun t => (t.status, t.completedAt)) =
      [(TaskStatus.blocked, some 1)] := by decide

theorem invariantCA_cons (t : Task) (ts : List Task) :
    invariantCA (t :: ts) = (statusCompletedIffCA t && invariantCA ts) := rfl

theorem applyUpdates_status_completed (t : Task) (u : TaskUpdate) (now : Nat)
    (hu : u.status = some .completed) :
    (applyUpdates t u now).status = .completed ∧
    (applyUpdates t u now).completedAt = some now := by
  unfold applyUpdates
  rw [if_pos (by rw [hu]; decide)]
  exact ⟨by show u.status.getD t.status = _; rw [hu]; rfl, rfl⟩

theorem applyUpdates_status_other (t : Task) (u : TaskUpdate) (now : Nat) (s : TaskStatus)
    (hu : u.status = some s) (hs : s ≠ .completed) (hca : u.completedAt = none) :
    (applyUpdates t u now).status = s ∧
    (applyUpdates t u now).completedAt = t.completedAt := by
  unfold applyUpdates
  rw [if_neg (by rw [hu]; simp [hs])]
  exact ⟨by show u.status.getD t.status = s; rw [hu]; rfl,
    by show u.completedAt.getD t.completedAt = t.completedAt; rw [hca]; rfl⟩

/-- Claim C4 (amended): add creates a pending task with no `completedAt`
and preserves the invariant; an update whose partial sets status to
completed (the facade's complete) preserves it; an update setting a
non-completed status without touching `completedAt` (the facade's block and
start) preserves it provided the targeted task is not already completed —
blocking a completed task is the violation exhibited by the
counterexample. -/
theorem completedAt_invariant_preserved :
    (∀ (input : TaskInput) (newId : String) (now : Nat) (ts : List Task),
       (addTask input newId now ts).1.status = TaskStatus.pending ∧
       (addTask input newId now ts).1.completedAt = none ∧
       (invariantCA ts = true → invariantCA (addTask input newId now ts).2 = true))
    ∧ (∀ (id : String) (u : TaskUpdate) (now : Nat) (ts : List Task),
        invariantCA ts = true → u.status = some TaskStatus.completed →
        invariantCA (updateTask id u now ts).2 = true)
    ∧ (∀ (id : String) (u : TaskUpdate) (now : Nat) (ts : List Task) (s : TaskStatus),
        invariantCA ts = true → u.status = some s → s ≠ TaskStatus.completed →
        u.completedAt = none →
        (∀ t ∈ ts, t.id = id → t.status ≠ TaskStatus.completed) →
        invariantCA (updateTask id u now ts).2 = true) := by
  refine ⟨?_, ?_, ?_⟩
  · intro input newId now ts
    refine ⟨rfl, rfl, fun h => ?_⟩
    show invariantCA (ts ++ [_]) = true
    unfold invariantCA at h ⊢
    rw [List.all_append, h]
    rfl
  · intro id u now ts
    induction ts with
    | nil => intro _ _; rfl
    | cons t rest ih =>
      intro hinv hu
      rw [invariantCA_cons, Bool.and_eq_true] at hinv
      obtain ⟨h1, h2⟩ := hinv
      show invariantCA (updateTask id u now (t :: rest)).2 = true
      unfold updateTask
      by_cases hid : (t.id == id) = true
      · rw [if_pos hid]
        show invariantCA (applyUpdates t u now :: rest) = true
        rw [invariantCA_cons, Bool.and_eq_true]
        obtain ⟨hs, hc⟩ := applyUpdates_status_completed t u now hu
        refine ⟨?_, h2⟩
        unfold statusCompletedIffCA
        rw [hs, hc]
        rfl
      · rw [if_neg hid]
        show invariantCA (t :: (updateTask id u now rest).2) = true
        rw [invariantCA_cons, Bool.and_eq_true]
        exact ⟨h1, ih h2 hu⟩
  · intro id u now ts s
    induction ts with
    | nil => intro _ _ _ _ _; rfl
    | cons t rest ih =>
      intro hinv hu hs hca hguard
      rw [invariantCA_cons, Bool.and_eq_true] at hinv
      obtain ⟨h1, h2⟩ := hinv
      show invariantCA (updateTask id u now (t :: rest)).2 = true
      unfold updateTask
      by_cases hid : (t.id == id) = true
      · rw [if_pos hid]
        show invariantCA (applyUpdates t u now :: rest) = true
        rw [invariantCA_cons, Bool.and_eq_true]
        refine ⟨?_, h2⟩
        have htne : t.status ≠ TaskStatus.completed :=
          hguard t (List.mem_cons_self t rest) (by simpa using hid)
        have htca : t.completedAt = none := by
          have hf : (t.status == TaskStatus.completed) = false := by
            simpa using htne
          unfold statusCompletedIffCA at h1
          rw [hf] at h1
          cases hc : t.completedAt with
          | none => rfl
          | some v => rw [hc] at h1; simp at h1
        obtain ⟨hsm, hcm⟩ := applyUpdates_status_other t u now s hu hs hca
        unfold statusCompletedIffCA
        rw [hsm, hcm, htca]
        simp [hs]
      · rw [if_neg hid]
        show invariantCA (t :: (updateTask id u now rest).2) = true
        rw [invariantCA_cons, Bool.and_eq_true]
        refine ⟨h1, ih h2 hu hs hca ?_⟩
        intro x hx hxid
        exact hguard x (List.mem_cons_of_mem t hx) hxid

/-- Claim C4 witness: blocking the freshly added (pending) task keeps the
invariant. -/
theorem completedAt_invariant_preserved_witness :
    invariantCA
      (updateTask "a1" { status := some .blocked, blockedReason := some (some "r") } 1
        storeAfterAdd).2 = true :=
  completedAt_invariant_preserved.2.2 "a1"
    { status := some .blocked, blockedReason := some (some "r") } 1 storeAfterAdd
    TaskStatus.blocked (by decide) rfl (by decide) rfl (by decide)

/-- Claim C5: `addTask` returns a task with status pending, priority the
input's priority or medium when absent, and handler, classification
confidence and reasoning taken from the classification of the input; the
saved store is the previous store with the new task appended, every
pre-existing task unchanged and in order. -/
theorem add_constructs_pending_append (input : TaskInput) (newId : String) (now : Nat)
    (ts : List Task) :
    (addTask input newId now ts).1.status = TaskStatus.pending
    ∧ (input.priority = none → (addTask input newId now ts).1.priority = TaskPriority.medium)
    ∧ (∀ p, input.priority = some p → (addTask input newId now ts).1.priority = p)
    ∧ (addTask input newId now ts).1.agent = (classifyTask input).agent
    ∧ (addTask input newId now ts).1.metadata =
        some { classificationConfidence := (classifyTask input).confidence,
               classificationReasoning := (classifyTask input).reasoning }
    ∧ (addTask input newId now ts).2 = ts ++ [(addTask input newId now ts).1] := by
  refine ⟨rfl, fun h => ?_, fun p h => ?_, rfl, rfl, rfl⟩
  · show input.priority.getD .medium = .medium
    rw [h]
    rfl
  · show input.priority.getD .medium = p
    rw [h]
    rfl

/-- Claim C5 witness: the default-priority and explicit-priority cases on
concrete inputs. -/
theorem add_constructs_pending_append_witness :
    (addTask inputNoMatch "a1" 0 []).1.priority = TaskPriority.medium ∧
    (addTask { inputScout with priority := some .critical } "a2" 0 []).1.priority =
      TaskPriority.critical :=
  ⟨(add_constructs_pending_append inputNoMatch "a1" 0 []).2.1 rfl,
   (add_constructs_pending_append { inputScout with priority := some .critical } "a2" 0
     []).2.2.1 TaskPriority.critical rfl⟩

theorem updateTask_found :
    ∀ (pre : List Task) (t : Task) (post : List Task) (id : String) (u : TaskUpdate)
      (now : Nat),
      (∀ p ∈ pre, p.id ≠ id) → t.id = id →
      updateTask id u now (pre ++ t :: post) =
        (some (applyUpdates t u now), pre ++ applyUpdates t u now :: post) := by
  intro pre
  induction pre with
  | nil =>
    intro t post id u now _ hid
    show updateTask id u now (t :: post) = _
    unfold updateTask
    rw [show (t.id == id) = true by simpa using hid]
    rfl
  | cons p pre ih =>
    intro t post id u now hpre hid
    show updateTask id u now (p :: (pre ++ t :: post)) = _
    unfold updateTask
    rw [show (p.id == id) = false by simpa using hpre p (List.mem_cons_self p pre)]
    rw [ih t post id u now (fun x hx => hpre x (List.mem_cons_of_mem p hx)) hid]
    rfl

/-- Claim C6: `updateTask` with an unknown id returns none and leaves the
store unchanged; with a known id it replaces exactly the first matching
task by the merge of the supplied fields, always refreshes `updatedAt`,
sets `completedAt` to now exactly when the partial sets status to
completed, leaves every other task unchanged, and returns the merged
task. -/
theorem update_merge_spec (id : String) (u : TaskUpdate) (now : Nat) (ts : List Task) :
    ((∀ t ∈ ts, t.id ≠ id) → updateTask id u now ts = (none, ts))
    ∧ (∀ pre t post, ts = pre ++ t :: post → (∀ p ∈ pre, p.id ≠ id) → t.id = id →
        updateTask id u now ts =
          (some (applyUpdates t u now), pre ++ applyUpdates t u now :: post))
    ∧ (∀ t, (applyUpdates t u now).updatedAt = now)
    ∧ (u.status = some TaskStatus.completed →
        ∀ t, (applyUpdates t u now).completedAt = some now)
    ∧ (∀ t, (applyUpdates t u now).id = u.id.getD t.id ∧
        (applyUpdates t u now).title = u.title.getD t.title ∧
        (applyUpdates t u now).description = u.description.getD t.description ∧
        (applyUpdates t u now).agent = u.agent.getD t.agent ∧
        (applyUpdates t u now).priority = u.priority.getD t.priority ∧
        (applyUpdates t u now).status = u.status.getD t.status ∧
        (applyUpdates t u now).tags = u.tags.getD t.tags ∧
        (applyUpdates t u now).dependencies = u.dependencies.getD t.dependencies ∧
        (applyUpdates t u now).completedAt =
          (if u.status == some TaskStatus.completed then some now
           else u.completedAt.getD t.completedAt)) := by
  refine ⟨?_, ?_, ?_, ?_, ?_⟩
  · intro hall
    induction ts with
    | nil => rfl
    | cons t rest ih =>
      have hne : (t.id == id) = false := by
        simpa using hall t (List.mem_cons_self t rest)
      show updateTask id u now (t :: rest) = (none, t :: rest)
      unfold updateTask
      rw [hne]
      have hr := ih (fun x hx => hall x (List.mem_cons_of_mem t hx))
      rw [hr]
      rfl
  · intro pre t post heq hpre hid
    rw [heq]
    exact updateTask_found pre t post id u now hpre hid
  · intro t
    unfold applyUpdates
    by_cases h : (u.status == some TaskStatus.completed) = true
    · rw [if_pos h]
    · rw [if_neg h]
  · intro hu t
    unfold applyUpdates
    rw [if_pos (by rw [hu]; decide)]
  · intro t
    unfold applyUpdates
    by_cases h : (u.status == some TaskStatus.completed) = true
    · rw [if_pos h, if_pos h]
      refine ⟨?_, ?_, ?_, ?_, ?_, ?_, ?_, ?_, ?_⟩ <;> rfl
    · rw [if_neg h, if_neg h]
      refine ⟨?_, ?_, ?_, ?_, ?_, ?_, ?_, ?_, ?_⟩ <;> rfl

/-- Claim C6 witness: the unknown-id and known-id branches on a concrete
one-task store. -/
theorem update_merge_spec_witness :
    updateTask "q" {} 5 [taskA] = (none, [taskA]) ∧
    updateTask "a" { status := some .completed } 5 [taskA] =
      (some (applyUpdates taskA { status := some .completed } 5),
       [applyUpdates taskA { status := some .completed } 5]) :=
  ⟨(update_merge_spec "q" {} 5 [taskA]).1 (by decide),
   (update_merge_spec "a" { status := some .completed } 5 [taskA]).2.1 [] taskA []
     rfl (by decide) (by decide)⟩

/-- Claim C9: `updateTask` validates nothing — supplied fields are
written verbatim: an update can change a task's id, set its dependencies to
a list containing its own id, and move a completed task back to pending
while `completedAt` stays set. -/
theorem update_no_validation :
    ((updateTask "x" { id := some "y" } 5 [{ baseTask with id := "x" }]).1.map Task.id =
      some "y")
    ∧ ((updateTask "x" { dependencies := some ["x"] } 5
        [{ baseTask with id := "x" }]).1.map Task.dependencies = some ["x"])
    ∧ ((updateTask "x" { status := some .pending } 5 [taskDoneX]).1.map
        (fun t => (t.status, t.completedAt)) = some (TaskStatus.pending, some 3))
    ∧ (∀ (t : Task) (u : TaskUpdate) (now : Nat),
        (applyUpdates t u now).id = u.id.getD t.id ∧
        (applyUpdates t u now).dependencies = u.dependencies.getD t.dependencies ∧
        (applyUpdates t u now).status = u.status.getD t.status) := by
  refine ⟨by decide, by decide, by decide, ?_⟩
  intro t u now
  unfold applyUpdates
  by_cases h : (u.status == some TaskStatus.completed) = true
  · rw [if_pos h]
    refine ⟨rfl, rfl, ?_⟩
    show u.status.getD t.status = _
    have : u.status = some TaskStatus.completed := by simpa using h
    rw [this]
  · rw [if_neg h]
    exact ⟨rfl, rfl, rfl⟩

end Orchestrator
